import Mathlib

/-!
# Verification of the Veritas audit-trail engine

Shallow embedding of the core of the `veritas` repository:

* `src/veritas/merkle.py`  — `MerkleTree` (SHA-256 Merkle tree over strings),
* `src/veritas/logger.py`  — `ActionLog`, `VeritasLogger` (recorder),
* `src/veritas/verifier.py` — `VeritasVerifier.verify_session`,
* `src/veritas/agent.py`   — the logging essence of `VeritasAgent.execute_action`.

Machine integers do not occur in the Python source (Python ints are unbounded);
the SHA-256 word arithmetic below is over `Nat` with explicit `% 2^32`.
Python side effects (fresh UUIDs, wall-clock timestamps, file I/O, printing)
are made explicit: every operation that draws a fresh id or a timestamp takes
it as an argument, and `export_proofs` returns the document value it would
write to disk.
-/

/-! ## SHA-256 (`hashlib.sha256(...).hexdigest()` over UTF-8 bytes)

A byte is a `Nat < 256`, a word a `Nat < 2^32`; all word operations are
reduced `% 4294967296` exactly where 32-bit overflow matters. -/

namespace Sha256

/-- The word modulus, 2^32. -/
def M32 : Nat := 4294967296

/-- Right-rotate a 32-bit word by `n`. -/
def rotr (n x : Nat) : Nat := ((x >>> n) ||| (x <<< (32 - n))) % M32

/-- Bitwise complement within 32 bits. -/
def bnot32 (x : Nat) : Nat := x ^^^ 4294967295

/-- SHA-256 `Ch` function. -/
def ch (x y z : Nat) : Nat := (x &&& y) ^^^ (bnot32 x &&& z)

/-- SHA-256 `Maj` function. -/
def maj (x y z : Nat) : Nat := (x &&& y) ^^^ (x &&& z) ^^^ (y &&& z)

/-- SHA-256 Σ0. -/
def bigSigma0 (x : Nat) : Nat := rotr 2 x ^^^ rotr 13 x ^^^ rotr 22 x

/-- SHA-256 Σ1. -/
def bigSigma1 (x : Nat) : Nat := rotr 6 x ^^^ rotr 11 x ^^^ rotr 25 x

/-- SHA-256 σ0. -/
def smallSigma0 (x : Nat) : Nat := rotr 7 x ^^^ rotr 18 x ^^^ (x >>> 3)

/-- SHA-256 σ1. -/
def smallSigma1 (x : Nat) : Nat := rotr 17 x ^^^ rotr 19 x ^^^ (x >>> 10)

/-- The 64 SHA-256 round constants of FIPS 180-4 (the fractional parts of
the cube roots of the first 64 primes), as decimal literals. -/
def K : List Nat :=
  [1116352408, 1899447441, 3049323471, 3921009573, 961987163,
   1508970993, 2453635748, 2870763221, 3624381080, 310598401,
   607225278, 1426881987, 1925078388, 2162078206, 2614888103,
   3248222580, 3835390401, 4022224774, 264347078, 604807628,
   770255983, 1249150122, 1555081692, 1996064986, 2554220882,
   2821834349, 2952996808, 3210313671, 3336571891, 3584528711,
   113926993, 338241895, 666307205, 773529912, 1294757372,
   1396182291, 1695183700, 1986661051, 2177026350, 2456956037,
   2730485921, 2820302411, 3259730800, 3345764771, 3516065817,
   3600352804, 4094571909, 275423344, 430227734, 506948616,
   659060556, 883997877, 958139571, 1322822218, 1537002063,
   1747873779, 1955562222, 2024104815, 2227730452, 2361852424,
   2428436474, 2756734187, 3204031479, 3329325298]

/-- The eight working registers of the compression function. -/
structure Regs where
  a : Nat
  b : Nat
  c : Nat
  d : Nat
  e : Nat
  f : Nat
  g : Nat
  h : Nat
deriving DecidableEq

/-- The SHA-256 initial hash value. -/
def H0 : Regs :=
  ⟨1779033703, 3144134277, 1013904242, 2773480762,
   1359893119, 2600822924, 528734635, 1541459225⟩

/-- Big-endian bytes (length 4) of a 32-bit word. -/
def wordBytes (w : Nat) : List Nat :=
  [w / 16777216 % 256, w / 65536 % 256, w / 256 % 256, w % 256]

/-- Big-endian bytes (length 8) of the 64-bit message bit-length. -/
def lenBytes (n : Nat) : List Nat :=
  [n / 72057594037927936 % 256, n / 281474976710656 % 256, n / 1099511627776 % 256,
   n / 4294967296 % 256, n / 16777216 % 256, n / 65536 % 256, n / 256 % 256, n % 256]

/-- Group big-endian bytes into 32-bit words (input length a multiple of 4). -/
def toWords : List Nat → List Nat
  | b0 :: b1 :: b2 :: b3 :: rest => (((b0 * 256 + b1) * 256 + b2) * 256 + b3) :: toWords rest
  | _ => []

/-- Extend the 16-word message schedule by `n` further words. -/
def extendW (w : List Nat) : Nat → List Nat
  | 0 => w
  | n + 1 =>
    let i := w.length
    let nw := (smallSigma1 (w.getD (i - 2) 0) + w.getD (i - 7) 0
               + smallSigma0 (w.getD (i - 15) 0) + w.getD (i - 16) 0) % M32
    extendW (w ++ [nw]) n

/-- One compression round. -/
def round (r : Regs) (w k : Nat) : Regs :=
  let t1 := (r.h + bigSigma1 r.e + ch r.e r.f r.g + k + w) % M32
  let t2 := (bigSigma0 r.a + maj r.a r.b r.c) % M32
  ⟨(t1 + t2) % M32, r.a, r.b, r.c, (r.d + t1) % M32, r.e, r.f, r.g⟩

/-- Process one 64-byte block. -/
def processBlock (hv : Regs) (block : List Nat) : Regs :=
  let w := extendW (toWords block) 48
  let r := (w.zip K).foldl (fun r wk => round r wk.1 wk.2) hv
  ⟨(hv.a + r.a) % M32, (hv.b + r.b) % M32, (hv.c + r.c) % M32, (hv.d + r.d) % M32,
   (hv.e + r.e) % M32, (hv.f + r.f) % M32, (hv.g + r.g) % M32, (hv.h + r.h) % M32⟩

/-- Split a byte list into 64-byte chunks (structurally, so that the kernel
can evaluate it; `cur` is the current chunk in reverse, `n` its length). -/
def chunksGo (cur : List Nat) (n : Nat) : List Nat → List (List Nat)
  | [] => if cur.isEmpty then [] else [cur.reverse]
  | b :: rest =>
    if n = 63 then (b :: cur).reverse :: chunksGo [] 0 rest
    else chunksGo (b :: cur) (n + 1) rest

/-- Split a byte list into 64-byte chunks. -/
def chunks64 (l : List Nat) : List (List Nat) := chunksGo [] 0 l

/-- SHA-256 padding: `0x80`, zero bytes to 56 mod 64, then the 64-bit bit length. -/
def pad (msg : List Nat) : List Nat :=
  msg ++ [128] ++ List.replicate ((119 - msg.length % 64) % 64) 0 ++ lenBytes (8 * msg.length)

/-- The 32 digest bytes of a byte message. -/
def sha256Bytes (msg : List Nat) : List Nat :=
  let f := ((chunks64 (pad msg)).foldl processBlock H0)
  wordBytes f.a ++ wordBytes f.b ++ wordBytes f.c ++ wordBytes f.d
  ++ wordBytes f.e ++ wordBytes f.f ++ wordBytes f.g ++ wordBytes f.h

/-- Lowercase hex digit. -/
def hexChar (n : Nat) : Char := Char.ofNat (if n < 10 then 48 + n else 87 + n)

/-- Two hex characters of a byte. -/
def byteHex (b : Nat) : List Char := [hexChar (b / 16), hexChar (b % 16)]

/-- Lowercase hex string of a byte list. -/
def bytesToHex (bs : List Nat) : String := ⟨bs.flatMap byteHex⟩

/-- UTF-8 bytes of one scalar value (what `str.encode` emits per character). -/
def utf8Char (c : Char) : List Nat :=
  let n := c.toNat
  if n < 128 then [n]
  else if n < 2048 then [192 + n / 64, 128 + n % 64]
  else if n < 65536 then [224 + n / 4096, 128 + n / 64 % 64, 128 + n % 64]
  else [240 + n / 262144, 128 + n / 4096 % 64, 128 + n / 64 % 64, 128 + n % 64]

/-- UTF-8 encoding of a string. -/
def utf8Encode (s : String) : List Nat := s.data.flatMap utf8Char

/-- Model of `hashlib.sha256(s.encode('utf-8')).hexdigest()`. -/
def sha256Hex (s : String) : String := bytesToHex (sha256Bytes (utf8Encode s))

end Sha256

/-! ## `MerkleTree` (src/veritas/merkle.py)

State is the pair of the `leaves` and `tree` attributes. `_build` is the
bottom-up while-loop: hash all leaves, then repeatedly pair adjacent nodes
left-to-right (`pairUp`, duplicating an odd last node) until one node is
left. The loop is rendered as `levelsGo` with the leaf count as structural
fuel (the level width strictly shrinks, so the count always suffices;
`buildLevels_eq` recovers the natural recursion), which keeps every
definition kernel-evaluable. -/

structure MerkleTree where
  leaves : List String
  tree : List (List String)
deriving DecidableEq

/-- Source `MerkleTree._hash`: `hashlib.sha256(data.encode('utf-8')).hexdigest()`. -/
def MerkleTree._hash (data : String) : String := Sha256.sha256Hex data

/-- One level step of `_build`'s inner `for` loop: combine `current_level[i]`
with `current_level[i+1]` as `H(left + right)`, duplicating the last node of
an odd level. -/
def pairUp : List String → List String
  | [] => []
  | [x] => [MerkleTree._hash (x ++ x)]
  | x :: y :: rest => MerkleTree._hash (x ++ y) :: pairUp rest

/-- The `while len(current_level) > 1` loop of `_build`, with explicit fuel. -/
def levelsGo : Nat → List String → List (List String)
  | 0, cur => [cur]
  | fuel + 1, cur => if cur.length ≤ 1 then [cur] else cur :: levelsGo fuel (pairUp cur)

/-- All levels of the tree above (and including) a starting level `cur`. -/
def buildLevels (cur : List String) : List (List String) := levelsGo cur.length cur

/-- The `self.tree` list `_build` computes from a list of leaves. -/
def buildTree (leaves : List String) : List (List String) :=
  if leaves.isEmpty then [] else buildLevels (leaves.map MerkleTree._hash)

/-- Source `MerkleTree._build`: rebuild `self.tree` from the current leaves (also
covers the `if not self.leaves: self.tree = []` early return). -/
def MerkleTree._build (t : MerkleTree) : MerkleTree :=
  ⟨t.leaves, buildTree t.leaves⟩

/-- Source `MerkleTree.__init__(leaves)`: store the leaves and build once when they
are non-empty (building on empty leaves also yields the empty tree). -/
def MerkleTree.init (leaves : List String) : MerkleTree :=
  MerkleTree._build ⟨leaves, []⟩

/-- Source `MerkleTree.add_leaf`: append the leaf and rebuild. -/
def MerkleTree.add_leaf (t : MerkleTree) (data : String) : MerkleTree :=
  MerkleTree._build ⟨t.leaves ++ [data], t.tree⟩

/-- Source `MerkleTree.add_leaf` as Python calls it: the method body has no
`return` statement, so the call evaluates to `None` next to the state
update. -/
def MerkleTree.add_leaf_ret (t : MerkleTree) (data : String) : MerkleTree × Option String :=
  (t.add_leaf data, none)

/-- Source `MerkleTree.get_root`: `None` on an empty tree, else `tree[-1][0]`. -/
def MerkleTree.get_root (t : MerkleTree) : Option String :=
  match t.tree.getLast? with
  | none => none
  | some lvl => lvl.head?

/-- The `'position'` field of a proof entry. -/
inductive Side where
  | left : Side
  | right : Side
deriving DecidableEq

/-- One entry of a Merkle proof: `{'position': 'left'|'right', 'data': hash}`. -/
structure ProofNode where
  position : Side
  data : String
deriving DecidableEq

/-- The `for level in self.tree[:-1]` loop of `get_proof`, with the running
`index`. `level[sib]`/`level[index]` are in bounds whenever read (the guard
`index < len(level)` holds and `sib < len(level)` is checked), so `getD`'s
default is never used. -/
def proofGo : List (List String) → Nat → List ProofNode
  | [], _ => []
  | level :: rest, index =>
    if level.length ≤ index then []
    else
      let isRight := index % 2 == 1
      let sib := if isRight then index - 1 else index + 1
      let sibHash := if sib < level.length then level.getD sib "" else level.getD index ""
      ⟨if isRight then Side.left else Side.right, sibHash⟩ :: proofGo rest (index / 2)

/-- Source `MerkleTree.get_proof`. -/
def MerkleTree.get_proof (t : MerkleTree) (index : Nat) : List ProofNode :=
  if t.tree.isEmpty then [] else proofGo t.tree.dropLast index

/-- One iteration of `verify_proof`'s loop. -/
def verifyStep (cur : String) (node : ProofNode) : String :=
  match node.position with
  | Side.left => MerkleTree._hash (node.data ++ cur)
  | Side.right => MerkleTree._hash (cur ++ node.data)

/-- Source `MerkleTree.verify_proof` (a static check: `self` is only used for
`_hash`). -/
def MerkleTree.verify_proof (leaf : String) (proof : List ProofNode) (root : String) : Bool :=
  proof.foldl verifyStep (MerkleTree._hash leaf) == root

/-- A collision of a hash function: two distinct inputs with one image.
Never assumed absent globally (that is false by pigeonhole); theorems that
ride on collision resistance conclude with this as an explicit disjunct. -/
def Collision (f : String → String) : Prop := ∃ a b : String, a ≠ b ∧ f a = f b

/-! ## `ActionLog` and `VeritasLogger` (src/veritas/logger.py)

`ActionLog` carries exactly the seven pydantic fields of the source (there is
no `leafHash` field). `input_params` and `output_result` hold the JSON
renderings (`json.dumps` fragments) of the arbitrary Python values stored in
those fields, and `timestamp` the JSON rendering of the float timestamp;
the claims under study never inspect their internal structure.

Side effects are explicit: `log_action` receives the fresh UUID and the
wall-clock reading as arguments, and `export_proofs` returns the document it
would `json.dump` to the file. -/

structure ActionLog where
  id : String
  basis_id : Option String
  timestamp : String
  event_type : String
  tool_name : String
  input_params : String
  output_result : String
deriving DecidableEq, Inhabited

/-- A JSON string literal (escaping of special characters inside `s` is not
modelled; the ids, event types and tool names in play contain none). -/
def jsonString (s : String) : String := "\"" ++ s ++ "\""

/-- JSON rendering of an optional string (`None` serializes as `null`). -/
def jsonOfOpt : Option String → String
  | none => "null"
  | some s => jsonString s

/-- Source `ActionLog.to_hashable_json`:
`json.dumps(self.model_dump(mode='json'), sort_keys=True)` — the seven keys
in sorted order with `json.dumps`'s default `", "`/`": "` separators. -/
def ActionLog.to_hashable_json (l : ActionLog) : String :=
  "\x7b\"basis_id\": " ++ jsonOfOpt l.basis_id ++
  ", \"event_type\": " ++ jsonString l.event_type ++
  ", \"id\": " ++ jsonString l.id ++
  ", \"input_params\": " ++ l.input_params ++
  ", \"output_result\": " ++ l.output_result ++
  ", \"timestamp\": " ++ l.timestamp ++
  ", \"tool_name\": " ++ jsonString l.tool_name ++ "\x7d"

/-- The recorder's state: the `_logs` list, the owned `_merkle_tree` and
`last_event_id`. -/
structure VeritasLogger where
  _logs : List ActionLog
  _merkle_tree : MerkleTree
  last_event_id : Option String
deriving DecidableEq

/-- Source `VeritasLogger.__init__`: empty log, fresh `MerkleTree()`, no last id. -/
def VeritasLogger.init : VeritasLogger := ⟨[], ⟨[], []⟩, none⟩

/-- Source `VeritasLogger.log_action`: build the entry (with the fresh UUID
`fresh_id` and timestamp `now`), append it, update `last_event_id`, and add
the entry's canonical serialization to the Merkle tree. Returns the new
state next to the entry the Python method returns. -/
def VeritasLogger.log_action (st : VeritasLogger) (tool_name : String)
    (params : String) (result : String) (event_type : String)
    (basis_id : Option String) (fresh_id : String) (now : String) :
    VeritasLogger × ActionLog :=
  let entry : ActionLog := ⟨fresh_id, basis_id, now, event_type, tool_name, params, result⟩
  (⟨st._logs ++ [entry], st._merkle_tree.add_leaf entry.to_hashable_json, some entry.id⟩, entry)

/-- Source `VeritasLogger.get_logs`. -/
def VeritasLogger.get_logs (st : VeritasLogger) : List ActionLog := st._logs

/-- Source `VeritasLogger.get_current_root`: `self._merkle_tree.get_root() or "0x0"`
— Python `or` takes the right operand when the left is falsy (`None` or the
empty string). -/
def VeritasLogger.get_current_root (st : VeritasLogger) : String :=
  match st._merkle_tree.get_root with
  | some r => if r = "" then "0x0" else r
  | none => "0x0"

/-- The session proof package `export_proofs` serializes: exactly the four
keys `session_root`, `event_count`, `timestamp` and `logs` (in particular no
`leaf_hashes` key, and no per-event leaf hash beyond the `ActionLog`
fields). -/
structure ProofDoc where
  session_root : String
  event_count : Nat
  timestamp : String
  logs : List ActionLog
deriving DecidableEq

/-- Source `VeritasLogger.export_proofs` (the document written to the file; `now`
is the wall-clock reading for the `timestamp` key). -/
def VeritasLogger.export_proofs (st : VeritasLogger) (now : String) : ProofDoc :=
  ⟨st.get_current_root, st._logs.length, now, st._logs⟩

/-- The closure `wrapper` produced by `VeritasLogger.wrap`.
`basis_id` is `kwargs.pop("basis_id", None)` — `none` when the caller does
not pass one. `params` is the captured stringified input. `call` is the
outcome of `f(*args, **kwargs)`: `Except.error` when the callable raises, in
which case the exception propagates and nothing is logged (the `log_action`
line is only reached after a normal return); `Except.ok` carries the
`str()` rendering of the result. Returns the value the wrapper returns
(or the propagated exception) next to the recorder state. -/
def VeritasLogger.wrapper (st : VeritasLogger) (name : String)
    (event_type : String) (basis_id : Option String) (params : String)
    (call : Except String String) (fresh_id : String) (now : String) :
    Except String String × VeritasLogger :=
  match call with
  | Except.error e => (Except.error e, st)
  | Except.ok result =>
    (Except.ok result, (st.log_action name params result event_type basis_id fresh_id now).1)

/-- The logging essence of `VeritasAgent.execute_action`
(src/veritas/agent.py): it reads `basis_id = self.logger.last_event_id` and
invokes the wrapped callable with that `basis_id` passed explicitly. -/
def VeritasAgent.execute_action (st : VeritasLogger) (tool_name : String)
    (params : String) (call : Except String String) (fresh_id : String)
    (now : String) : Except String String × VeritasLogger :=
  VeritasLogger.wrapper st tool_name "ACTION" st.last_event_id params call fresh_id now

/-! ## `VeritasVerifier.verify_session` (src/veritas/verifier.py)

The verifier consumes the parsed JSON document: the `logs` array (each entry
re-serialized with `json.dumps(log_entry, sort_keys=True)`, which on a
round-tripped export equals `ActionLog.to_hashable_json` — `json.dump`
followed by `json.load` reproduces the dict), `session_root` (`.get`, so
possibly absent) and `leaf_hashes` (`.get(..., [])`).

The source's single row loop both rebuilds the tree and compares row
hashes; the two effects are independent, so they are rendered as `calcTree`
(the tree fold) and `rowCheckGo` (the comparisons and their detail lines, in
loop order). `pyStr` renders an optional string the way an f-string would
(`None` for an absent value; the slicing `[:8]` of `None` that would raise
in Python is unreachable on the inputs the claims exercise). -/

structure VerifierInput where
  logs : List ActionLog
  session_root : Option String
  leaf_hashes : List String
deriving DecidableEq

/-- The parsed content of an exported proof file. `json.dump`/`json.load`
round-trips the document exactly: the export carries no `leaf_hashes` key,
so the verifier's `.get("leaf_hashes", [])` yields `[]`. -/
def ProofDoc.toVerifierInput (d : ProofDoc) : VerifierInput :=
  ⟨d.logs, some d.session_root, []⟩

/-- f-string rendering of a possibly-absent string. -/
def pyStr : Option String → String
  | none => "None"
  | some s => s

/-- The fresh tree the verifier folds every re-serialized row into. -/
def calcTree (logs : List ActionLog) : MerkleTree :=
  logs.foldl (fun t log => t.add_leaf log.to_hashable_json) ⟨[], []⟩

/-- Detail lines of a row-level mismatch at index `i`. -/
def tamperLines (i : Nat) (tool expected calculated : String) : List String :=
  ["[red]TAMPER DETECTED[/red] in Log #" ++ toString i ++ " (" ++ tool ++ ")",
   "   Expected: " ++ expected.take 8 ++ "...",
   "   Found:    " ++ calculated.take 8 ++ "..."]

/-- Detail line of a verified row at index `i`. -/
def verifiedRowLine (i : Nat) (tool : String) : String :=
  "[green]Verified[/green] Log #" ++ toString i ++ ": " ++ tool

/-- The row-level comparison part of the verifier loop: compare the hash of
each re-serialized row against `claimed_leaves[i]` when that list is
non-empty and long enough. Returns the detail lines in loop order and the
`row_integrity_failed` flag. -/
def rowCheckGo (claimed_leaves : List String) (i : Nat) :
    List ActionLog → List String × Bool
  | [] => ([], false)
  | log :: rest =>
    let calculated_leaf := MerkleTree._hash log.to_hashable_json
    let acc := rowCheckGo claimed_leaves (i + 1) rest
    if claimed_leaves ≠ [] ∧ i < claimed_leaves.length then
      let expected_leaf := claimed_leaves.getD i ""
      if calculated_leaf ≠ expected_leaf then
        (tamperLines i log.tool_name expected_leaf calculated_leaf ++ acc.1, true)
      else
        (verifiedRowLine i log.tool_name :: acc.1, acc.2)
    else acc

/-- The root comparison: detail lines and the validity of the root. -/
def rootCheck (calculated_root claimed_root : Option String) : List String × Bool :=
  if calculated_root ≠ claimed_root then
    (["[red]CRITICAL FAILURE:[/red] Merkle Root mismatch!",
      "   Calculated: " ++ (pyStr calculated_root).take 8 ++ "...",
      "   Claimed:    " ++ (pyStr claimed_root).take 8 ++ "..."], false)
  else
    (["Merkle Root verified: " ++ pyStr calculated_root], true)

/-- Python truthiness of `log.get("basis_id")`. -/
def truthy : Option String → Bool
  | none => false
  | some s => s != ""

/-- The broken-link detail line. -/
def brokenLinkLine (i : Nat) (b : String) : String :=
  "[red]Broken link[/red] at log [" ++ toString i ++ "]: basis_id " ++ b ++
  " not found in session"

/-- The verified-link detail line. -/
def verifiedLinkLine (tool b : String) : String :=
  "Verified link: " ++ (tool ++ (" -> " ++ (b.take 8 ++ "...")))

/-- The unlinked-action warning line. -/
def warningLine (tool : String) : String :=
  "[yellow]Warning:[/yellow] Action " ++ (tool ++ " has no linked observation")

/-- The evidence-chaining loop: a truthy `basis_id` must be a member of the
set of all event ids (a miss is a broken link and invalidates the chain); an
`ACTION` without one only draws a warning. Returns the detail lines in loop
order and the `valid_chain` flag. -/
def chainCheckGo (event_ids : List String) (i : Nat) :
    List ActionLog → List String × Bool
  | [] => ([], true)
  | log :: rest =>
    let acc := chainCheckGo event_ids (i + 1) rest
    let step : List String × Bool :=
      if truthy log.basis_id then
        let b := log.basis_id.getD ""
        if event_ids.contains b then ([verifiedLinkLine log.tool_name b], true)
        else ([brokenLinkLine i b], false)
      else if log.event_type == "ACTION" then ([warningLine log.tool_name], true)
      else ([], true)
    (step.1 ++ acc.1, step.2 && acc.2)

/-- Source `VeritasVerifier.verify_session`: returns `(is_valid, message, details)`. -/
def verify_session (proof_data : VerifierInput) : Bool × String × List String :=
  if proof_data.logs.isEmpty then (false, "No logs found in proof file", [])
  else
    let row := rowCheckGo proof_data.leaf_hashes 0 proof_data.logs
    let calculated_root := (calcTree proof_data.logs).get_root
    let root := rootCheck calculated_root proof_data.session_root
    let valid_root := root.2 && !row.2
    let chain := chainCheckGo (proof_data.logs.map (fun l => l.id)) 0 proof_data.logs
    let is_valid := valid_root && chain.2
    (is_valid,
     if is_valid then "Session integrity verified"
     else "Session integrity verification FAILED",
     row.1 ++ root.1 ++ chain.1)

/-! ## Basic facts about the digest and the level builder -/

namespace Sha256

theorem bytesToHex_length (bs : List Nat) : (bytesToHex bs).length = 2 * bs.length := by
  induction bs with
  | nil => rfl
  | cons b rest ih =>
    simp only [bytesToHex, String.length] at ih ⊢
    simp [List.flatMap_cons, byteHex] at ih ⊢
    omega

theorem sha256Bytes_length (msg : List Nat) : (sha256Bytes msg).length = 32 := by
  simp [sha256Bytes, wordBytes]

theorem sha256Hex_length (s : String) : (sha256Hex s).length = 64 := by
  simp [sha256Hex, bytesToHex_length, sha256Bytes_length]

end Sha256

theorem _hash_length (s : String) : (MerkleTree._hash s).length = 64 :=
  Sha256.sha256Hex_length s

theorem _hash_ne_empty (s : String) : MerkleTree._hash s ≠ "" := by
  intro h
  have := _hash_length s
  rw [h] at this
  simp at this

theorem pairUp_length : ∀ l : List String, (pairUp l).length = (l.length + 1) / 2
  | [] => rfl
  | [_] => by simp [pairUp]
  | _ :: _ :: rest => by
    simp [pairUp, pairUp_length rest]
    omega

theorem levelsGo_nil (fuel : Nat) : levelsGo fuel [] = [[]] := by
  cases fuel <;> simp [levelsGo]

theorem levelsGo_of_le_one (fuel : Nat) (cur : List String) (h : cur.length ≤ 1) :
    levelsGo fuel cur = [cur] := by
  cases fuel <;> simp [levelsGo, h]

theorem levelsGo_congr : ∀ (n f1 f2 : Nat) (cur : List String), cur.length ≤ n →
    cur.length ≤ f1 → cur.length ≤ f2 → levelsGo f1 cur = levelsGo f2 cur := by
  intro n
  induction n with
  | zero =>
    intro f1 f2 cur h _ _
    have : cur = [] := List.eq_nil_of_length_eq_zero (by omega)
    subst this
    rw [levelsGo_nil, levelsGo_nil]
  | succ n ih =>
    intro f1 f2 cur h hf1 hf2
    by_cases h1 : cur.length ≤ 1
    · rw [levelsGo_of_le_one _ _ h1, levelsGo_of_le_one _ _ h1]
    · obtain ⟨a, rfl⟩ : ∃ a, f1 = a + 1 := ⟨f1 - 1, by omega⟩
      obtain ⟨b, rfl⟩ : ∃ b, f2 = b + 1 := ⟨f2 - 1, by omega⟩
      have hp : (pairUp cur).length ≤ n := by rw [pairUp_length]; omega
      simp only [levelsGo, if_neg h1]
      rw [ih a b (pairUp cur) hp (by rw [pairUp_length]; omega) (by rw [pairUp_length]; omega)]

/-- The natural recursion of `_build`'s while loop. -/
theorem buildLevels_eq (cur : List String) :
    buildLevels cur = if cur.length ≤ 1 then [cur] else cur :: buildLevels (pairUp cur) := by
  by_cases h1 : cur.length ≤ 1
  · rw [if_pos h1]
    exact levelsGo_of_le_one _ _ h1
  · rw [if_neg h1]
    obtain ⟨m, hm⟩ : ∃ m, cur.length = m + 1 := ⟨cur.length - 1, by omega⟩
    unfold buildLevels
    rw [hm]
    simp only [levelsGo, if_neg h1]
    have hp : (pairUp cur).length ≤ m := by rw [pairUp_length]; omega
    rw [levelsGo_congr m m (pairUp cur).length (pairUp cur) hp hp (le_refl _)]

theorem buildLevels_ne_nil (cur : List String) : buildLevels cur ≠ [] := by
  rw [buildLevels_eq]
  by_cases h1 : cur.length ≤ 1 <;> simp [h1]

theorem buildLevels_head (cur : List String) : (buildLevels cur).head? = some cur := by
  rw [buildLevels_eq]
  by_cases h1 : cur.length ≤ 1 <;> simp [h1]

theorem string_length_data (s : String) : s.data.length = s.length := rfl

theorem string_append_cancel_left {a b c : String} (h : a ++ b = a ++ c) : b = c := by
  have hd : (a ++ b).data = (a ++ c).data := congrArg String.data h
  rw [String.data_append, String.data_append] at hd
  exact String.ext (List.append_cancel_left hd)

theorem string_append_cancel_right {a b c : String} (h : a ++ c = b ++ c) : a = b := by
  have hd : (a ++ c).data = (b ++ c).data := congrArg String.data h
  rw [String.data_append, String.data_append] at hd
  exact String.ext (List.append_cancel_right hd)

theorem string_append_inj_left {a b c d : String} (h : a ++ b = c ++ d)
    (hlen : a.length = c.length) : a = c := by
  have hd : (a ++ b).data = (c ++ d).data := congrArg String.data h
  rw [String.data_append, String.data_append] at hd
  exact String.ext (List.append_inj_left hd (by rw [string_length_data, string_length_data, hlen]))

theorem pairUp_mem_length : ∀ l : List String, ∀ x ∈ pairUp l, x.length = 64
  | [] => by simp [pairUp]
  | [a] => by simp [pairUp, _hash_length]
  | a :: b :: rest => by
    intro x hx
    simp only [pairUp, List.mem_cons] at hx
    rcases hx with h | h
    · rw [h]; exact _hash_length _
    · exact pairUp_mem_length rest x h

theorem buildLevels_root_aux : ∀ (n : Nat) (cur : List String), cur.length ≤ n →
    0 < cur.length → (∀ x ∈ cur, x.length = 64) →
    ∃ r, (buildLevels cur).getLast? = some [r] ∧ r.length = 64 := by
  intro n
  induction n with
  | zero => intro cur h h0 _; omega
  | succ n ih =>
    intro cur h h0 hlen
    by_cases h1 : cur.length ≤ 1
    · have hx1 : cur.length = 1 := by omega
      obtain ⟨x, rfl⟩ := List.length_eq_one.mp hx1
      refine ⟨x, ?_, hlen x (by simp)⟩
      rw [buildLevels_eq]
      simp
    · have hp0 : 0 < (pairUp cur).length := by rw [pairUp_length]; omega
      have hpn : (pairUp cur).length ≤ n := by rw [pairUp_length]; omega
      obtain ⟨r, hr, hrlen⟩ := ih (pairUp cur) hpn hp0 (pairUp_mem_length cur)
      refine ⟨r, ?_, hrlen⟩
      rw [buildLevels_eq, if_neg h1]
      cases hbl : buildLevels (pairUp cur) with
      | nil => exact absurd hbl (buildLevels_ne_nil _)
      | cons lvl rest =>
        rw [hbl] at hr
        rw [List.getLast?_cons_cons]
        exact hr

/-- The root of the tree over a non-empty level of digests. -/
theorem buildLevels_root (cur : List String) (h0 : 0 < cur.length)
    (hlen : ∀ x ∈ cur, x.length = 64) :
    ∃ r, (buildLevels cur).getLast? = some [r] ∧ r.length = 64 :=
  buildLevels_root_aux cur.length cur (le_refl _) h0 hlen

/-- Indexing into one combined level: entry `k` hashes nodes `2k` and
`2k+1`, or node `2k` with itself when `2k` is the odd last index. -/
theorem pairUp_getD : ∀ (l : List String) (k : Nat), k < (pairUp l).length →
    (pairUp l).getD k "" =
      if 2 * k + 1 < l.length
      then MerkleTree._hash (l.getD (2 * k) "" ++ l.getD (2 * k + 1) "")
      else MerkleTree._hash (l.getD (2 * k) "" ++ l.getD (2 * k) "")
  | [], k => by simp [pairUp]
  | [x], k => by
    intro hk
    simp [pairUp] at hk
    subst hk
    simp [pairUp]
  | x :: y :: rest, k => by
    intro hk
    cases k with
    | zero =>
      simp [pairUp]
    | succ k =>
      have hk' : k < (pairUp rest).length := by
        simpa [pairUp] using hk
      have := pairUp_getD rest k hk'
      simp only [pairUp, List.getD_cons_succ] at this ⊢
      rw [this]
      have harith : 2 * (k + 1) = 2 * k + 2 := by omega
      by_cases hb : 2 * k + 1 < rest.length
      · rw [if_pos hb, if_pos (by simp; omega)]
        simp [harith, List.getD_cons_succ]
      · rw [if_neg hb, if_neg (by simp; omega)]
        simp [harith, List.getD_cons_succ]

/-- The proof entry `get_proof` emits for `index` at one level. -/
def levelNode (level : List String) (index : Nat) : ProofNode :=
  let isRight := index % 2 == 1
  let sib := if isRight then index - 1 else index + 1
  let sibHash := if sib < level.length then level.getD sib "" else level.getD index ""
  ⟨if isRight then Side.left else Side.right, sibHash⟩

theorem proofGo_cons (level : List String) (rest : List (List String)) (index : Nat)
    (h : index < level.length) :
    proofGo (level :: rest) index = levelNode level index :: proofGo rest (index / 2) := by
  simp only [proofGo, levelNode]
  rw [if_neg (by omega)]

theorem getLast?_cons_of_ne_nil {α : Type} (a : α) (L : List α) (h : L ≠ []) :
    (a :: L).getLast? = L.getLast? := by
  cases L with
  | nil => exact absurd rfl h
  | cons b t => exact List.getLast?_cons_cons

theorem getD_mem (l : List String) (i : Nat) (h : i < l.length) : l.getD i "" ∈ l := by
  rw [List.getD_eq_getElem?_getD, List.getElem?_eq_getElem h]
  exact List.getElem_mem h

/-- What one verification step computes against the proof entry of `index`,
next to the combined level's node above `index`. -/
theorem verifyStep_cases (cur : List String) (index : Nat) (h : index < cur.length)
    (c : String) (hk : index / 2 < (pairUp cur).length) :
    (index % 2 = 1 ∧
      verifyStep c (levelNode cur index) =
        MerkleTree._hash (cur.getD (index - 1) "" ++ c) ∧
      (pairUp cur).getD (index / 2) "" =
        MerkleTree._hash (cur.getD (index - 1) "" ++ cur.getD index ""))
    ∨ (index % 2 = 0 ∧ index + 1 < cur.length ∧
      verifyStep c (levelNode cur index) =
        MerkleTree._hash (c ++ cur.getD (index + 1) "") ∧
      (pairUp cur).getD (index / 2) "" =
        MerkleTree._hash (cur.getD index "" ++ cur.getD (index + 1) ""))
    ∨ (index % 2 = 0 ∧ ¬ index + 1 < cur.length ∧
      verifyStep c (levelNode cur index) =
        MerkleTree._hash (c ++ cur.getD index "") ∧
      (pairUp cur).getD (index / 2) "" =
        MerkleTree._hash (cur.getD index "" ++ cur.getD index "")) := by
  rw [pairUp_getD cur (index / 2) hk]
  rcases Nat.even_or_odd index with he | ho
  · have h2 : index % 2 = 0 := Nat.even_iff.mp he
    have hbeq : (index % 2 == 1) = false := by simp [h2]
    have h2k : 2 * (index / 2) = index := by omega
    by_cases hs : index + 1 < cur.length
    · refine Or.inr (Or.inl ⟨h2, hs, ?_, ?_⟩)
      · simp only [levelNode, hbeq, if_neg, Bool.false_eq_true, ite_false,
          if_pos hs, verifyStep]
      · rw [h2k, if_pos (by omega)]
    · refine Or.inr (Or.inr ⟨h2, hs, ?_, ?_⟩)
      · simp only [levelNode, hbeq, Bool.false_eq_true, ite_false,
          if_neg hs, verifyStep]
      · rw [h2k, if_neg (by omega)]
  · have h2 : index % 2 = 1 := Nat.odd_iff.mp ho
    have hbeq : (index % 2 == 1) = true := by simp [h2]
    have h2k : 2 * (index / 2) = index - 1 := by omega
    have h2k1 : 2 * (index / 2) + 1 = index := by omega
    refine Or.inl ⟨h2, ?_, ?_⟩
    · simp only [levelNode, hbeq, ite_true, verifyStep,
        if_pos (show index - 1 < cur.length by omega)]
    · rw [h2k1, h2k, if_pos (by omega)]

theorem verifyStep_self (cur : List String) (index : Nat) (h : index < cur.length) :
    verifyStep (cur.getD index "") (levelNode cur index) = (pairUp cur).getD (index / 2) "" := by
  have hk : index / 2 < (pairUp cur).length := by rw [pairUp_length]; omega
  rcases verifyStep_cases cur index h (cur.getD index "") hk with
    ⟨_, hv, hp⟩ | ⟨_, _, hv, hp⟩ | ⟨_, _, hv, hp⟩ <;> rw [hv, hp]

theorem verifyStep_length (c : String) (node : ProofNode) :
    (verifyStep c node).length = 64 := by
  cases node with
  | mk pos data => cases pos <;> simp [verifyStep, _hash_length]

/-- Completeness of proof verification: folding the proof for `index` from
the level-`0` node at `index` reaches the root. -/
theorem fold_root_aux : ∀ (n : Nat) (cur : List String) (index : Nat), cur.length ≤ n →
    index < cur.length → ∀ r, (buildLevels cur).getLast? = some [r] →
    List.foldl verifyStep (cur.getD index "") (proofGo (buildLevels cur).dropLast index) = r := by
  intro n
  induction n with
  | zero => intro cur index h h0 r _; omega
  | succ n ih =>
    intro cur index h hidx r hr
    by_cases h1 : cur.length ≤ 1
    · have hx1 : cur.length = 1 := by omega
      obtain ⟨x, rfl⟩ := List.length_eq_one.mp hx1
      have hi0 : index = 0 := by simp at hidx; omega
      subst hi0
      rw [buildLevels_eq] at hr ⊢
      simp at hr ⊢
      simp [proofGo, hr]
    · rw [buildLevels_eq, if_neg h1] at hr ⊢
      rw [getLast?_cons_of_ne_nil _ _ (buildLevels_ne_nil _)] at hr
      rw [List.dropLast_cons_of_ne_nil (buildLevels_ne_nil _)]
      rw [proofGo_cons _ _ _ hidx, List.foldl_cons]
      rw [verifyStep_self cur index hidx]
      exact ih (pairUp cur) (index / 2) (by rw [pairUp_length]; omega)
        (by rw [pairUp_length]; omega) r hr

/-- Soundness of proof verification: folding the proof for `index` from a
level-`0` value other than the node at `index` misses the root — or two
concrete strings collide under the hash. -/
theorem fold_ne_aux : ∀ (n : Nat) (cur : List String) (index : Nat) (c : String),
    cur.length ≤ n → index < cur.length → c.length = 64 →
    (∀ x ∈ cur, x.length = 64) → c ≠ cur.getD index "" →
    ∀ r, (buildLevels cur).getLast? = some [r] →
    List.foldl verifyStep c (proofGo (buildLevels cur).dropLast index) ≠ r
      ∨ Collision MerkleTree._hash := by
  intro n
  induction n with
  | zero => intro cur index c h h0 _ _ _ r _; omega
  | succ n ih =>
    intro cur index c h hidx hclen hcur hne r hr
    by_cases h1 : cur.length ≤ 1
    · have hx1 : cur.length = 1 := by omega
      obtain ⟨x, rfl⟩ := List.length_eq_one.mp hx1
      have hi0 : index = 0 := by simp at hidx; omega
      subst hi0
      rw [buildLevels_eq] at hr ⊢
      simp at hr ⊢
      simp [proofGo]
      left
      rw [hr] at hne
      simpa using hne
    · rw [buildLevels_eq, if_neg h1] at hr ⊢
      rw [getLast?_cons_of_ne_nil _ _ (buildLevels_ne_nil _)] at hr
      rw [List.dropLast_cons_of_ne_nil (buildLevels_ne_nil _)]
      rw [proofGo_cons _ _ _ hidx, List.foldl_cons]
      have hk : index / 2 < (pairUp cur).length := by rw [pairUp_length]; omega
      by_cases heq : verifyStep c (levelNode cur index) = (pairUp cur).getD (index / 2) ""
      · rcases verifyStep_cases cur index hidx c hk with
          ⟨_, hv, hp⟩ | ⟨_, _, hv, hp⟩ | ⟨_, _, hv, hp⟩
        · rw [hv, hp] at heq
          by_cases hin : cur.getD (index - 1) "" ++ c = cur.getD (index - 1) "" ++ cur.getD index ""
          · exact absurd (string_append_cancel_left hin) hne
          · exact Or.inr ⟨_, _, hin, heq⟩
        · rw [hv, hp] at heq
          by_cases hin : c ++ cur.getD (index + 1) "" = cur.getD index "" ++ cur.getD (index + 1) ""
          · exact absurd (string_append_cancel_right hin) hne
          · exact Or.inr ⟨_, _, hin, heq⟩
        · rw [hv, hp] at heq
          by_cases hin : c ++ cur.getD index "" = cur.getD index "" ++ cur.getD index ""
          · exact absurd
              (string_append_inj_left hin
                (by rw [hclen, hcur (cur.getD index "") (getD_mem cur index hidx)]))
              hne
          · exact Or.inr ⟨_, _, hin, heq⟩
      · exact ih (pairUp cur) (index / 2) (verifyStep c (levelNode cur index))
          (by rw [pairUp_length]; omega) hk (verifyStep_length c _)
          (pairUp_mem_length cur) heq r hr

theorem add_leaf_init (ls : List String) (x : String) :
    (MerkleTree.init ls).add_leaf x = MerkleTree.init (ls ++ [x]) := rfl

theorem foldl_add_leaf (xs : List String) : ∀ ls : List String,
    List.foldl MerkleTree.add_leaf (MerkleTree.init ls) xs = MerkleTree.init (ls ++ xs) := by
  induction xs with
  | nil => intro ls; simp
  | cons x rest ih =>
    intro ls
    rw [List.foldl_cons, add_leaf_init, ih (ls ++ [x])]
    simp

theorem getD_map_hash (l : List String) (i : Nat) (h : i < l.length) :
    (l.map MerkleTree._hash).getD i "" = MerkleTree._hash (l.getD i "") := by
  simp [List.getD_eq_getElem?_getD, List.getElem?_map, List.getElem?_eq_getElem h]

theorem map_hash_length (l : List String) : ∀ x ∈ l.map MerkleTree._hash, x.length = 64 := by
  intro x hx
  obtain ⟨y, _, rfl⟩ := List.mem_map.mp hx
  exact _hash_length y

theorem chain_buildLevels_aux : ∀ (n : Nat) (cur : List String), cur.length ≤ n →
    List.Chain' (fun a b => b = pairUp a) (buildLevels cur) := by
  intro n
  induction n with
  | zero =>
    intro cur h
    have : cur = [] := List.eq_nil_of_length_eq_zero (by omega)
    subst this
    rw [buildLevels_eq]
    simp
  | succ n ih =>
    intro cur h
    rw [buildLevels_eq]
    by_cases h1 : cur.length ≤ 1
    · simp [h1]
    · rw [if_neg h1]
      rw [List.chain'_cons']
      refine ⟨?_, ih (pairUp cur) (by rw [pairUp_length]; omega)⟩
      intro b hb
      rw [buildLevels_head (pairUp cur)] at hb
      simp at hb
      exact hb.symm

theorem init_tree (leaves : List String) (h : leaves ≠ []) :
    (MerkleTree.init leaves).tree = buildLevels (leaves.map MerkleTree._hash) := by
  simp [MerkleTree.init, MerkleTree._build, buildTree, h]

/-- C7: building a `MerkleTree` from a full leaf list at once and growing a
fresh `MerkleTree()` by one `add_leaf` call per element in the same order
produce the same state — in particular the same root and the same tree of
digests (level 0 of which holds the per-leaf digests). Both are pure
functions of the ordered leaf list, so two fresh instances built from the
same list always agree. -/
theorem merkle_determinism (xs : List String) :
    List.foldl MerkleTree.add_leaf ⟨[], []⟩ xs = MerkleTree.init xs
    ∧ (List.foldl MerkleTree.add_leaf ⟨[], []⟩ xs).get_root = (MerkleTree.init xs).get_root
    ∧ (List.foldl MerkleTree.add_leaf ⟨[], []⟩ xs).tree = (MerkleTree.init xs).tree := by
  have h : List.foldl MerkleTree.add_leaf (⟨[], []⟩ : MerkleTree) xs = MerkleTree.init xs := by
    have h0 : (⟨[], []⟩ : MerkleTree) = MerkleTree.init [] := rfl
    rw [h0, foldl_add_leaf xs []]
    simp
  exact ⟨h, by rw [h], by rw [h]⟩

/-- C8: every adjacent pair of levels of a built tree is related by
`pairUp` — pair adjacent nodes left-to-right, combine as `H(left + right)`,
and duplicate an odd last node; for three leaves the root is
`H(H(H(a)+H(b)) + H(H(c)+H(c)))` and for one leaf it is `H(a)`. -/
theorem merkle_odd_duplication :
    (∀ leaves : List String,
      List.Chain' (fun a b => b = pairUp a) (MerkleTree.init leaves).tree)
    ∧ (∀ a : String, (MerkleTree.init [a]).get_root = some (MerkleTree._hash a))
    ∧ (∀ a b c : String, (MerkleTree.init [a, b, c]).get_root =
        some (MerkleTree._hash (MerkleTree._hash (MerkleTree._hash a ++ MerkleTree._hash b) ++
              MerkleTree._hash (MerkleTree._hash c ++ MerkleTree._hash c)))) := by
  refine ⟨?_, fun a => rfl, fun a b c => rfl⟩
  intro leaves
  by_cases h : leaves = []
  · subst h
    simp [MerkleTree.init, MerkleTree._build, buildTree]
  · rw [init_tree leaves h]
    exact chain_buildLevels_aux (leaves.map MerkleTree._hash).length _ (le_refl _)

/-- C6: for a tree over `N ≥ 1` leaves and any leaf index `i`,
`verify_proof(leaf_i, get_proof(i), get_root())` returns `true`; and for the
content of any other leaf `j` whose data differs from `leaf_i`, the same
check returns `false` — unless two concrete strings collide under SHA-256
(the finitary rendering of "SHA-256 is collision-resistant": unconditional
falsity is unprovable for any fixed 256-bit hash). -/
theorem merkle_proof_soundness (leaves : List String) (i j : Nat)
    (hi : i < leaves.length) (hj : j < leaves.length)
    (hne : leaves.getD j "" ≠ leaves.getD i "") :
    MerkleTree.verify_proof (leaves.getD i "")
      ((MerkleTree.init leaves).get_proof i)
      ((MerkleTree.init leaves).get_root.getD "") = true
    ∧ (MerkleTree.verify_proof (leaves.getD j "")
        ((MerkleTree.init leaves).get_proof i)
        ((MerkleTree.init leaves).get_root.getD "") = false
      ∨ Collision MerkleTree._hash) := by
  have hne0 : leaves ≠ [] := by
    intro hh
    subst hh
    simp at hi
  have hlen0 : 0 < (leaves.map MerkleTree._hash).length := by simp; omega
  obtain ⟨r, hlast, hrlen⟩ :=
    buildLevels_root (leaves.map MerkleTree._hash) hlen0 (map_hash_length leaves)
  have htree := init_tree leaves hne0
  have hroot : (MerkleTree.init leaves).get_root = some r := by
    simp [MerkleTree.get_root, htree, hlast]
  have hproof : (MerkleTree.init leaves).get_proof i =
      proofGo (buildLevels (leaves.map MerkleTree._hash)).dropLast i := by
    have hbne := buildLevels_ne_nil (leaves.map MerkleTree._hash)
    simp [MerkleTree.get_proof, htree, hbne]
  have hstart : MerkleTree._hash (leaves.getD i "") =
      (leaves.map MerkleTree._hash).getD i "" := (getD_map_hash leaves i hi).symm
  constructor
  · rw [MerkleTree.verify_proof, hproof, hroot]
    rw [hstart]
    rw [fold_root_aux (leaves.map MerkleTree._hash).length _ i (le_refl _)
      (by simp; omega) r hlast]
    simp
  · by_cases hcol : MerkleTree._hash (leaves.getD j "") = MerkleTree._hash (leaves.getD i "")
    · exact Or.inr ⟨leaves.getD j "", leaves.getD i "", hne, hcol⟩
    · have hc : MerkleTree._hash (leaves.getD j "") ≠
          (leaves.map MerkleTree._hash).getD i "" := by
        rw [getD_map_hash leaves i hi]
        exact hcol
      rcases fold_ne_aux (leaves.map MerkleTree._hash).length _ i
          (MerkleTree._hash (leaves.getD j "")) (le_refl _) (by simp; omega)
          (_hash_length _) (map_hash_length leaves) hc r hlast with hne2 | hcoll
      · left
        rw [MerkleTree.verify_proof, hproof, hroot]
        simp only [Option.getD_some]
        exact beq_eq_false_iff_ne.mpr hne2
      · exact Or.inr hcoll

/-- Witness for C6 at the two-leaf tree over `["a", "b"]`, `i = 0`, `j = 1`. -/
theorem merkle_proof_soundness_witness :
    (0 < (["a", "b"] : List String).length ∧ 1 < (["a", "b"] : List String).length ∧
      (["a", "b"] : List String).getD 1 "" ≠ (["a", "b"] : List String).getD 0 "") ∧
    (MerkleTree.verify_proof ((["a", "b"] : List String).getD 0 "")
        ((MerkleTree.init ["a", "b"]).get_proof 0)
        ((MerkleTree.init ["a", "b"]).get_root.getD "") = true
      ∧ (MerkleTree.verify_proof ((["a", "b"] : List String).getD 1 "")
          ((MerkleTree.init ["a", "b"]).get_proof 0)
          ((MerkleTree.init ["a", "b"]).get_root.getD "") = false
        ∨ Collision MerkleTree._hash)) :=
  ⟨⟨by decide, by decide, by decide⟩,
   merkle_proof_soundness ["a", "b"] 0 1 (by decide) (by decide) (by decide)⟩

/-! ## Supporting facts about the recorder and the verifier -/

theorem rowCheckGo_nil_leaves : ∀ (i : Nat) (logs : List ActionLog),
    rowCheckGo [] i logs = ([], false)
  | _, [] => rfl
  | i, _ :: rest => by
    simp [rowCheckGo, rowCheckGo_nil_leaves (i + 1) rest]

theorem calcTree_eq (logs : List ActionLog) :
    calcTree logs = MerkleTree.init (logs.map ActionLog.to_hashable_json) := by
  have h1 := foldl_add_leaf (logs.map ActionLog.to_hashable_json) []
  rw [List.foldl_map] at h1
  have h0 : MerkleTree.init ([] : List String) = (⟨[], []⟩ : MerkleTree) := rfl
  rw [h0] at h1
  simpa [calcTree] using h1

theorem init_get_root (leaves : List String) (h : leaves ≠ []) :
    ∃ r, (MerkleTree.init leaves).get_root = some r ∧ r.length = 64 := by
  have hlen0 : 0 < (leaves.map MerkleTree._hash).length := by
    simp
    exact List.length_pos_of_ne_nil h
  obtain ⟨r, hlast, hrlen⟩ :=
    buildLevels_root (leaves.map MerkleTree._hash) hlen0 (map_hash_length leaves)
  exact ⟨r, by simp [MerkleTree.get_root, init_tree leaves h, hlast], hrlen⟩

theorem get_current_root_of_init (st : VeritasLogger) (leaves : List String)
    (h : st._merkle_tree = MerkleTree.init leaves) (hne : leaves ≠ []) :
    ∃ r, st._merkle_tree.get_root = some r ∧ r.length = 64 ∧ st.get_current_root = r := by
  obtain ⟨r, hr, hrlen⟩ := init_get_root leaves hne
  refine ⟨r, by rw [h]; exact hr, hrlen, ?_⟩
  have hrne : r ≠ "" := by
    intro he
    rw [he] at hrlen
    simp at hrlen
  simp [VeritasLogger.get_current_root, h, hr, hrne]

theorem truthy_iff (o : Option String) :
    truthy o = true ↔ ∃ b, o = some b ∧ b ≠ "" := by
  cases o with
  | none => simp [truthy]
  | some s => simp [truthy]

theorem contains_true_iff (ids : List String) (b : String) :
    ids.contains b = true ↔ b ∈ ids := by
  rw [show ids.contains b = ids.elem b from rfl, List.elem_eq_mem]
  simp

theorem contains_false_iff (ids : List String) (b : String) :
    ids.contains b = false ↔ b ∉ ids := by
  rw [show ids.contains b = ids.elem b from rfl, List.elem_eq_mem]
  simp

theorem chainCheckGo_false_iff : ∀ (ids : List String) (i : Nat) (logs : List ActionLog),
    (chainCheckGo ids i logs).2 = false ↔
      ∃ l ∈ logs, ∃ b, l.basis_id = some b ∧ b ≠ "" ∧ b ∉ ids
  | _, _, [] => by simp [chainCheckGo]
  | ids, i, log :: rest => by
    simp only [chainCheckGo]
    by_cases ht : truthy log.basis_id = true
    · obtain ⟨b, hb, hbne⟩ := (truthy_iff _).mp ht
      by_cases hc : ids.contains (log.basis_id.getD "") = true
      · simp only [ht, if_true, hc, Bool.true_and]
        rw [chainCheckGo_false_iff ids (i + 1) rest]
        constructor
        · rintro ⟨l, hl, hbb⟩
          exact ⟨l, List.mem_cons_of_mem _ hl, hbb⟩
        · rintro ⟨l, hl, b2, hb2, hbne2, hmem2⟩
          rcases List.mem_cons.mp hl with rfl | hl2
          · rw [hb2] at hc
            simp only [Option.getD_some] at hc
            exact absurd ((contains_true_iff ids b2).mp hc) hmem2
          · exact ⟨l, hl2, b2, hb2, hbne2, hmem2⟩
      · have hc2 : ids.contains (log.basis_id.getD "") = false :=
          Bool.not_eq_true _ ▸ (Bool.eq_false_iff.mpr hc)
        simp only [ht, if_true, hc2, Bool.false_eq_true, if_false, Bool.false_and]
        constructor
        · intro _
          refine ⟨log, List.mem_cons_self _ _, b, hb, hbne, ?_⟩
          intro hmem
          rw [hb] at hc2
          simp only [Option.getD_some] at hc2
          exact absurd hmem ((contains_false_iff ids b).mp hc2)
        · intro _
          trivial
    · have ht2 : truthy log.basis_id = false := Bool.eq_false_iff.mpr ht
      by_cases ha : (log.event_type == "ACTION") = true
      · simp only [ht2, Bool.false_eq_true, if_false, ha, if_true, Bool.true_and]
        rw [chainCheckGo_false_iff ids (i + 1) rest]
        constructor
        · rintro ⟨l, hl, hbb⟩
          exact ⟨l, List.mem_cons_of_mem _ hl, hbb⟩
        · rintro ⟨l, hl, b2, hb2, hbne2, hmem2⟩
          rcases List.mem_cons.mp hl with rfl | hl2
          · have : truthy l.basis_id = true := (truthy_iff _).mpr ⟨b2, hb2, hbne2⟩
            rw [this] at ht2
            simp at ht2
          · exact ⟨l, hl2, b2, hb2, hbne2, hmem2⟩
      · have ha2 : (log.event_type == "ACTION") = false := Bool.eq_false_iff.mpr ha
        simp only [ht2, Bool.false_eq_true, if_false, ha2, Bool.true_and]
        rw [chainCheckGo_false_iff ids (i + 1) rest]
        constructor
        · rintro ⟨l, hl, hbb⟩
          exact ⟨l, List.mem_cons_of_mem _ hl, hbb⟩
        · rintro ⟨l, hl, b2, hb2, hbne2, hmem2⟩
          rcases List.mem_cons.mp hl with rfl | hl2
          · have : truthy l.basis_id = true := (truthy_iff _).mpr ⟨b2, hb2, hbne2⟩
            rw [this] at ht2
            simp at ht2
          · exact ⟨l, hl2, b2, hb2, hbne2, hmem2⟩

theorem chainCheckGo_warning_mem : ∀ (ids : List String) (i : Nat)
    (logs : List ActionLog) (l : ActionLog), l ∈ logs → l.event_type = "ACTION" →
    truthy l.basis_id = false → warningLine l.tool_name ∈ (chainCheckGo ids i logs).1
  | _, _, [], _ => by simp
  | ids, i, log :: rest, l => by
    intro hl ha ht
    rw [chainCheckGo]
    rcases List.mem_cons.mp hl with rfl | hl'
    · apply List.mem_append_left
      rw [if_neg (by simp [ht]), if_pos (by simp [ha])]
      simp
    · apply List.mem_append_right
      exact chainCheckGo_warning_mem ids (i + 1) rest l hl' ha ht

theorem add_leaf_level0 (t : MerkleTree) (s : String) :
    ((t.add_leaf s).tree.headD []).getLast? = some (MerkleTree._hash s) := by
  have hne : (t.leaves ++ [s] : List String) ≠ [] := by simp
  have htr : (t.add_leaf s).tree = buildLevels ((t.leaves ++ [s]).map MerkleTree._hash) := by
    simp [MerkleTree.add_leaf, MerkleTree._build, buildTree, hne]
  rw [htr]
  have hh := buildLevels_head ((t.leaves ++ [s]).map MerkleTree._hash)
  rw [List.headD_eq_head?_getD, hh]
  simp

/-- C4 counterexample: `add_leaf` has no `return` statement — the call
evaluates to `None`, not to the appended leaf's digest. -/
theorem add_leaf_return_counterexample :
    ((⟨[], []⟩ : MerkleTree).add_leaf_ret "data1").2 = none
    ∧ ((⟨[], []⟩ : MerkleTree).add_leaf_ret "data1").2 ≠ some (MerkleTree._hash "data1") :=
  ⟨rfl, by simp [MerkleTree.add_leaf_ret]⟩

/-- C4 (amended): the leaf digest of an event is fixed at append time as the
last level-0 node of the recorder's tree — the digest of the event's
canonical serialization — but `add_leaf` returns `None` (no value), and the
`ActionLog` record carries no digest field. -/
theorem leaf_digest_fixed_at_append (st : VeritasLogger)
    (tool params res et fresh_id now : String) (basis : Option String) :
    (st.log_action tool params res et basis fresh_id now).1._merkle_tree.leaves.getLast?
      = some (st.log_action tool params res et basis fresh_id now).2.to_hashable_json
    ∧ (((st.log_action tool params res et basis fresh_id now).1._merkle_tree.tree.headD
        []).getLast?
      = some (MerkleTree._hash
          (st.log_action tool params res et basis fresh_id now).2.to_hashable_json))
    ∧ (st._merkle_tree.add_leaf_ret
        (st.log_action tool params res et basis fresh_id now).2.to_hashable_json).2 = none := by
  refine ⟨?_, ?_, rfl⟩
  · simp [VeritasLogger.log_action, MerkleTree.add_leaf, MerkleTree._build]
  · exact add_leaf_level0 st._merkle_tree _

/-- C2 counterexample: a wrapped callable that raises propagates the
exception, but the recorder state is untouched — in particular no `ERROR`
event (no event at all) is appended to the log. -/
theorem wrap_error_unrecorded_counterexample :
    VeritasLogger.wrapper VeritasLogger.init "t" "ACTION" none "p"
        (Except.error "boom") "id1" "ts1"
      = (Except.error "boom", VeritasLogger.init)
    ∧ (VeritasLogger.wrapper VeritasLogger.init "t" "ACTION" none "p"
        (Except.error "boom") "id1" "ts1").2._logs.filter
          (fun l => l.event_type == "ERROR") = [] :=
  ⟨rfl, rfl⟩

/-- C2 (amended): an exception raised by the wrapped callable propagates to
the caller unchanged and the wrapper records nothing — the log, tree and
`last_event_id` are exactly as before; on a normal return the result is
passed through unchanged after the event is recorded. (`ERROR` events are
recorded by the mission-loop caller in `agent.py`, not by `wrap`.) -/
theorem wrap_error_propagates (st : VeritasLogger)
    (name event_type params fresh_id now : String) (basis_id : Option String) :
    (∀ e : String,
      VeritasLogger.wrapper st name event_type basis_id params (Except.error e) fresh_id now
        = (Except.error e, st))
    ∧ (∀ r : String,
      VeritasLogger.wrapper st name event_type basis_id params (Except.ok r) fresh_id now
        = (Except.ok r, (st.log_action name params r event_type basis_id fresh_id now).1)) :=
  ⟨fun _ => rfl, fun _ => rfl⟩

/-- A session with one OBSERVATION recorded (id `"X"`), used to exhibit the
wrapper's basis default. -/
def c9State : VeritasLogger :=
  (VeritasLogger.init.log_action "obs" "p0" "r0" "OBSERVATION" none "X" "t0").1

/-- C9 counterexample: with `last_event_id = some "X"`, invoking a wrapped
callable without passing `basis_id` records an event whose `basis_id` is
`None`, not `"X"`. -/
theorem wrap_basis_default_counterexample :
    c9State.last_event_id = some "X"
    ∧ ((VeritasLogger.wrapper c9State "tool" "ACTION" none "p1"
          (Except.ok "r1") "Y" "t1").2._logs.getLast?.map (fun l => l.basis_id))
        = some none
    ∧ (some (none : Option String) : Option (Option String)) ≠ some (some "X") :=
  ⟨rfl, rfl, by decide⟩

/-- C9 (amended): the wrapper's `basis_id` defaults to `None` when the
caller passes none (`kwargs.pop("basis_id", None)`); an explicitly passed
`basis_id` is recorded as given; the resolution to `last_event_id` is
performed by `VeritasAgent.execute_action`, which always passes
`basis_id=self.logger.last_event_id` explicitly. -/
theorem wrap_basis_resolution (st : VeritasLogger)
    (name et params fresh_id now r b tool : String) :
    ((VeritasLogger.wrapper st name et none params (Except.ok r) fresh_id now).2._logs.getLast?.map
        (fun l => l.basis_id)) = some none
    ∧ ((VeritasLogger.wrapper st name et (some b) params (Except.ok r) fresh_id now).2._logs.getLast?.map
        (fun l => l.basis_id)) = some (some b)
    ∧ ((VeritasAgent.execute_action st tool params (Except.ok r) fresh_id now).2._logs.getLast?.map
        (fun l => l.basis_id)) = some st.last_event_id := by
  refine ⟨?_, ?_, ?_⟩ <;>
    simp [VeritasLogger.wrapper, VeritasAgent.execute_action, VeritasLogger.log_action,
      List.getLast?_concat]

/-- The explicit inputs of one `log_action` call (arguments plus the fresh
UUID and timestamp the call draws). -/
structure LogRequest where
  tool_name : String
  params : String
  result : String
  event_type : String
  basis_id : Option String
  fresh_id : String
  now : String
deriving DecidableEq

/-- Run a fresh recorder through a sequence of `log_action` calls. -/
def runLogger (reqs : List LogRequest) : VeritasLogger :=
  reqs.foldl
    (fun st r =>
      (st.log_action r.tool_name r.params r.result r.event_type r.basis_id r.fresh_id r.now).1)
    VeritasLogger.init

theorem runLogger_aux : ∀ (reqs : List LogRequest) (st : VeritasLogger),
    st._merkle_tree = MerkleTree.init (st._logs.map ActionLog.to_hashable_json) →
    (reqs.foldl
        (fun st r =>
          (st.log_action r.tool_name r.params r.result r.event_type r.basis_id r.fresh_id r.now).1)
        st)._merkle_tree
      = MerkleTree.init
          ((reqs.foldl
              (fun st r =>
                (st.log_action r.tool_name r.params r.result r.event_type r.basis_id r.fresh_id r.now).1)
              st)._logs.map ActionLog.to_hashable_json)
    ∧ (reqs.foldl
        (fun st r =>
          (st.log_action r.tool_name r.params r.result r.event_type r.basis_id r.fresh_id r.now).1)
        st)._logs.length = st._logs.length + reqs.length := by
  intro reqs
  induction reqs with
  | nil => intro st h; simpa using h
  | cons r rest ih =>
    intro st h
    rw [List.foldl_cons]
    have hstep :
        ((st.log_action r.tool_name r.params r.result r.event_type r.basis_id r.fresh_id r.now).1)._merkle_tree
          = MerkleTree.init
              (((st.log_action r.tool_name r.params r.result r.event_type r.basis_id r.fresh_id r.now).1)._logs.map
                ActionLog.to_hashable_json) := by
      simp only [VeritasLogger.log_action]
      rw [h, add_leaf_init]
      simp
    obtain ⟨h1, h2⟩ := ih _ hstep
    refine ⟨h1, ?_⟩
    rw [h2]
    simp [VeritasLogger.log_action]
    omega

theorem runLogger_state (reqs : List LogRequest) :
    (runLogger reqs)._merkle_tree =
      MerkleTree.init ((runLogger reqs)._logs.map ActionLog.to_hashable_json)
    ∧ (runLogger reqs)._logs.length = reqs.length := by
  have h := runLogger_aux reqs VeritasLogger.init rfl
  simpa [runLogger, VeritasLogger.init] using h

/-- C10: `get_root` is `None` exactly on the empty tree (no leaves ever
added); `get_current_root` never yields `None` and cannot raise — on an
empty log it is the fixed sentinel `"0x0"`, and on any non-empty log it is
the tree's root digest, a 64-character value. -/
theorem empty_state_behavior :
    (∀ t : MerkleTree, t.leaves = [] → (MerkleTree._build t).get_root = none)
    ∧ (MerkleTree.init []).get_root = none
    ∧ VeritasLogger.init.get_current_root = "0x0"
    ∧ (∀ reqs : List LogRequest, reqs ≠ [] →
        ∃ r, (runLogger reqs)._merkle_tree.get_root = some r
          ∧ r.length = 64 ∧ (runLogger reqs).get_current_root = r) := by
  refine ⟨?_, rfl, rfl, ?_⟩
  · intro t ht
    simp [MerkleTree._build, buildTree, ht, MerkleTree.get_root]
  · intro reqs hne
    obtain ⟨htree, hlen⟩ := runLogger_state reqs
    have hlogs : (runLogger reqs)._logs ≠ [] := by
      intro h
      rw [h] at hlen
      simp at hlen
      exact hne (List.eq_nil_of_length_eq_zero hlen.symm)
    have hmap : ((runLogger reqs)._logs.map ActionLog.to_hashable_json) ≠ [] := by
      simp [hlogs]
    obtain ⟨r, hr, hrlen, hcur⟩ := get_current_root_of_init (runLogger reqs) _ htree hmap
    exact ⟨r, hr, hrlen, hcur⟩

/-- Witness for C10's non-empty branch: one recorded action. -/
theorem empty_state_behavior_witness :
    ([(⟨"t", "p", "r", "ACTION", none, "id", "ts"⟩ : LogRequest)] ≠ ([] : List LogRequest))
    ∧ ∃ r, (runLogger [⟨"t", "p", "r", "ACTION", none, "id", "ts"⟩])._merkle_tree.get_root = some r
        ∧ r.length = 64
        ∧ (runLogger [⟨"t", "p", "r", "ACTION", none, "id", "ts"⟩]).get_current_root = r :=
  ⟨by decide,
   empty_state_behavior.2.2.2 [⟨"t", "p", "r", "ACTION", none, "id", "ts"⟩] (by decide)⟩

/-- C5: an exported session document carries no `leaf_hashes` key and no
per-event leaf hash (the `ProofDoc`/`ActionLog` fields are exhaustive), so
the verifier's row-level comparison loop performs zero comparisons on it —
no row details, no row failure — and verification reduces to the root
comparison plus the chain check. -/
theorem export_reduces_to_root_and_chain (st : VeritasLogger) (now : String) :
    ((st.export_proofs now).toVerifierInput.leaf_hashes = [])
    ∧ rowCheckGo (st.export_proofs now).toVerifierInput.leaf_hashes 0
        (st.export_proofs now).toVerifierInput.logs = ([], false)
    ∧ verify_session ((st.export_proofs now).toVerifierInput) =
        (if st._logs.isEmpty then (false, "No logs found in proof file", ([] : List String))
         else
           ((rootCheck (calcTree st._logs).get_root (some st.get_current_root)).2
              && (chainCheckGo (st._logs.map (fun l => l.id)) 0 st._logs).2,
            if (rootCheck (calcTree st._logs).get_root (some st.get_current_root)).2
                && (chainCheckGo (st._logs.map (fun l => l.id)) 0 st._logs).2
            then "Session integrity verified" else "Session integrity verification FAILED",
            (rootCheck (calcTree st._logs).get_root (some st.get_current_root)).1
              ++ (chainCheckGo (st._logs.map (fun l => l.id)) 0 st._logs).1)) := by
  refine ⟨rfl, rowCheckGo_nil_leaves 0 _, ?_⟩
  by_cases h : st._logs.isEmpty
  · simp [verify_session, ProofDoc.toVerifierInput, VeritasLogger.export_proofs, h]
  · simp [verify_session, ProofDoc.toVerifierInput, VeritasLogger.export_proofs, h,
      rowCheckGo_nil_leaves]

/-- C3 (amended): `verify_session` reports a broken link (and the chain flag
goes false) exactly when some event carries a truthy `basisId` that does not
resolve to any event id anywhere in the session — the membership test uses
the set of all ids, so forward references and self-references also resolve;
overall validity is the root check AND the absence of row failures AND this
chain flag; an ACTION without a truthy `basisId` only contributes a warning
detail, which never affects validity. -/
theorem verifier_chain_policy (p : VerifierInput) (hne : ¬ p.logs.isEmpty) :
    ((verify_session p).1 =
        ((rootCheck (calcTree p.logs).get_root p.session_root).2
          && !(rowCheckGo p.leaf_hashes 0 p.logs).2
          && (chainCheckGo (p.logs.map (fun l => l.id)) 0 p.logs).2))
    ∧ ((chainCheckGo (p.logs.map (fun l => l.id)) 0 p.logs).2 = false ↔
        ∃ l ∈ p.logs, ∃ b, l.basis_id = some b ∧ b ≠ "" ∧ b ∉ p.logs.map (fun l => l.id))
    ∧ (∀ l ∈ p.logs, l.event_type = "ACTION" → truthy l.basis_id = false →
        warningLine l.tool_name ∈ (verify_session p).2.2) := by
  refine ⟨by simp [verify_session, hne], chainCheckGo_false_iff _ 0 _, ?_⟩
  intro l hl ha ht
  have hmem := chainCheckGo_warning_mem (p.logs.map (fun l => l.id)) 0 p.logs l hl ha ht
  simp only [verify_session, if_neg hne]
  exact List.mem_append_right _ hmem

/-- Witness for C3's amended characterization: a one-ACTION session with no
basis link. -/
theorem verifier_chain_policy_witness :
    (¬ (⟨[⟨"A", none, "0", "ACTION", "t", "0", "0"⟩], none, []⟩ : VerifierInput).logs.isEmpty)
    ∧ (((verify_session ⟨[⟨"A", none, "0", "ACTION", "t", "0", "0"⟩], none, []⟩).1 =
        ((rootCheck (calcTree (⟨[⟨"A", none, "0", "ACTION", "t", "0", "0"⟩], none, []⟩ :
              VerifierInput).logs).get_root
            (⟨[⟨"A", none, "0", "ACTION", "t", "0", "0"⟩], none, []⟩ : VerifierInput).session_root).2
          && !(rowCheckGo (⟨[⟨"A", none, "0", "ACTION", "t", "0", "0"⟩], none, []⟩ :
              VerifierInput).leaf_hashes 0
            (⟨[⟨"A", none, "0", "ACTION", "t", "0", "0"⟩], none, []⟩ : VerifierInput).logs).2
          && (chainCheckGo ((⟨[⟨"A", none, "0", "ACTION", "t", "0", "0"⟩], none, []⟩ :
              VerifierInput).logs.map (fun l => l.id)) 0
            (⟨[⟨"A", none, "0", "ACTION", "t", "0", "0"⟩], none, []⟩ : VerifierInput).logs).2))
      ∧ ((chainCheckGo ((⟨[⟨"A", none, "0", "ACTION", "t", "0", "0"⟩], none, []⟩ :
              VerifierInput).logs.map (fun l => l.id)) 0
            (⟨[⟨"A", none, "0", "ACTION", "t", "0", "0"⟩], none, []⟩ : VerifierInput).logs).2 = false ↔
          ∃ l ∈ (⟨[⟨"A", none, "0", "ACTION", "t", "0", "0"⟩], none, []⟩ : VerifierInput).logs,
            ∃ b, l.basis_id = some b ∧ b ≠ "" ∧
              b ∉ (⟨[⟨"A", none, "0", "ACTION", "t", "0", "0"⟩], none, []⟩ :
                VerifierInput).logs.map (fun l => l.id))
      ∧ (∀ l ∈ (⟨[⟨"A", none, "0", "ACTION", "t", "0", "0"⟩], none, []⟩ : VerifierInput).logs,
          l.event_type = "ACTION" → truthy l.basis_id = false →
          warningLine l.tool_name ∈
            (verify_session ⟨[⟨"A", none, "0", "ACTION", "t", "0", "0"⟩], none, []⟩).2.2)) :=
  ⟨by decide, verifier_chain_policy _ (by decide)⟩

/-- A two-event document in which log 0's `basis_id` refers forward to
log 1's id, with the correct Merkle root over the two serialized rows. -/
def fwdDoc : VerifierInput :=
  ⟨[⟨"A", some "B", "0", "ACTION", "t", "0", "0"⟩,
    ⟨"B", none, "0", "OBSERVATION", "s", "0", "0"⟩],
   some "2978114fd27189ee4fa9b013a57157091f6b6bcea7ce82fea442eade8d786647", []⟩

set_option maxRecDepth 100000 in
/-- C3 counterexample: in `fwdDoc`, event 0 carries a `basisId` that does
not resolve to any earlier event id (it refers forward), so the claim
demands a broken-link failure and `valid == false`; the code instead
resolves it against the set of all ids and returns `valid == true` with a
verified-link detail and no broken-link detail. -/
theorem verifier_forward_reference_counterexample :
    verify_session fwdDoc =
      (true, "Session integrity verified",
       ["Merkle Root verified: 2978114fd27189ee4fa9b013a57157091f6b6bcea7ce82fea442eade8d786647",
        "Verified link: t -> B..."])
    ∧ (fwdDoc.logs.headD default).basis_id = some "B"
    ∧ "B" ∉ (fwdDoc.logs.take 0).map (fun l => l.id) :=
  ⟨by decide, rfl, by decide⟩

theorem append_head_ne (a b c d : String) (x y : Char) (hxa : a.data.head? = some x)
    (hyc : c.data.head? = some y) (hxy : x ≠ y) : a ++ b ≠ c ++ d := by
  intro h
  have hd : (a ++ b).data = (c ++ d).data := congrArg String.data h
  rw [String.data_append, String.data_append] at hd
  have hh := congrArg List.head? hd
  rw [List.head?_append, List.head?_append, hxa, hyc] at hh
  simp only [Option.or_some] at hh
  exact hxy (by simpa using hh)

/-- The recorder state after recording one OBSERVATION (fresh id `obs_id`)
and then one ACTION whose `basis_id` is that observation's id. -/
def roundtripState (src q obsres obs_id obs_ts tool p res act_id act_ts : String) :
    VeritasLogger :=
  ((VeritasLogger.init.log_action src q obsres "OBSERVATION" none obs_id obs_ts).1.log_action
      tool p res "ACTION" (some obs_id) act_id act_ts).1

/-- C1: exporting the OBSERVATION→ACTION session and verifying the exported
document yields `valid = true` with the message `"Session integrity
verified"`, and the details consist of the root confirmation and the
verified basis link — no warning detail appears. (`obs_id ≠ ""` holds for
every UUID; an empty id would be falsy in Python.) -/
theorem chain_roundtrip (src q obsres obs_id obs_ts tool p res act_id act_ts now : String)
    (hobs : obs_id ≠ "") :
    verify_session
        (((roundtripState src q obsres obs_id obs_ts tool p res act_id act_ts).export_proofs
          now).toVerifierInput)
      = (true, "Session integrity verified",
         ["Merkle Root verified: "
            ++ (roundtripState src q obsres obs_id obs_ts tool p res act_id act_ts).get_current_root,
          verifiedLinkLine tool obs_id])
    ∧ ∀ t, warningLine t ∉
        (verify_session
          (((roundtripState src q obsres obs_id obs_ts tool p res act_id act_ts).export_proofs
            now).toVerifierInput)).2.2 := by
  set st := roundtripState src q obsres obs_id obs_ts tool p res act_id act_ts with hst
  have hlogs : st._logs =
      [⟨obs_id, none, obs_ts, "OBSERVATION", src, q, obsres⟩,
       ⟨act_id, some obs_id, act_ts, "ACTION", tool, p, res⟩] := rfl
  have htree : st._merkle_tree =
      MerkleTree.init
        [ActionLog.to_hashable_json ⟨obs_id, none, obs_ts, "OBSERVATION", src, q, obsres⟩,
         ActionLog.to_hashable_json ⟨act_id, some obs_id, act_ts, "ACTION", tool, p, res⟩] := rfl
  obtain ⟨r, hr, hrlen, hcur⟩ := get_current_root_of_init st _ htree (by simp)
  have hcalc : (calcTree st._logs).get_root = some r := by
    rw [calcTree_eq, hlogs]
    simp only [List.map_cons, List.map_nil]
    rw [← htree]
    exact hr
  have hroot : rootCheck (calcTree st._logs).get_root (some st.get_current_root)
      = (["Merkle Root verified: " ++ st.get_current_root], true) := by
    rw [hcalc, hcur]
    simp [rootCheck, pyStr]
  have hbne : (obs_id != "") = true := by simpa using hobs
  have hob : (("OBSERVATION" : String) == "ACTION") = false := by decide
  have hchain : chainCheckGo (st._logs.map (fun l => l.id)) 0 st._logs
      = ([verifiedLinkLine tool obs_id], true) := by
    rw [hlogs]
    simp [chainCheckGo, truthy, hbne, hob]
  have hrow : rowCheckGo ([] : List String) 0 st._logs = ([], false) :=
    rowCheckGo_nil_leaves 0 _
  have hinput : ((st.export_proofs now).toVerifierInput : VerifierInput)
      = ⟨st._logs, some st.get_current_root, []⟩ := rfl
  have hne : st._logs.isEmpty = false := by rw [hlogs]; rfl
  have hmain : verify_session ((st.export_proofs now).toVerifierInput)
      = (true, "Session integrity verified",
         ["Merkle Root verified: " ++ st.get_current_root, verifiedLinkLine tool obs_id]) := by
    rw [hinput]
    simp only [verify_session, hne, Bool.false_eq_true, if_false, hrow, hroot, hchain]
    simp
  refine ⟨hmain, ?_⟩
  intro t hmem
  rw [hmain] at hmem
  simp only [List.mem_cons, List.mem_singleton] at hmem
  rcases hmem with hm | hm | hm
  · exact append_head_ne "[yellow]Warning:[/yellow] Action "
      (t ++ " has no linked observation") "Merkle Root verified: " st.get_current_root
      '[' 'M' rfl rfl (by decide) hm
  · exact append_head_ne "[yellow]Warning:[/yellow] Action "
      (t ++ " has no linked observation") "Verified link: "
      (tool ++ (" -> " ++ (obs_id.take 8 ++ "..."))) '[' 'V' rfl rfl (by decide) hm
  · exact absurd hm (List.not_mem_nil _)

/-- Witness for C1 with concrete session data. -/
theorem chain_roundtrip_witness :
    ("obs-1" : String) ≠ ""
    ∧ (verify_session
        (((roundtripState "market" "q" "px" "obs-1" "t0" "trade" "p" "ok" "act-1" "t1").export_proofs
          "t2").toVerifierInput)
      = (true, "Session integrity verified",
         ["Merkle Root verified: "
            ++ (roundtripState "market" "q" "px" "obs-1" "t0" "trade" "p" "ok" "act-1"
                "t1").get_current_root,
          verifiedLinkLine "trade" "obs-1"])
      ∧ ∀ t, warningLine t ∉
          (verify_session
            (((roundtripState "market" "q" "px" "obs-1" "t0" "trade" "p" "ok" "act-1"
              "t1").export_proofs "t2").toVerifierInput)).2.2) :=
  ⟨by decide, chain_roundtrip "market" "q" "px" "obs-1" "t0" "trade" "p" "ok" "act-1" "t1" "t2"
    (by decide)⟩
